import Mathlib

/-!
Shallow embedding of the bidirectional `Variant` <-> `FieldValue` converter
from `blogs/sept-2021/converter.h`, together with theorems checking the
specification's claims about it.

Modelling conventions:
* C++ `int64_t` is modelled as `Int` (the converter never performs integer
  arithmetic, so no overflow is observable).
* C++ `double` is modelled as `Rat`: the converter only copies double values
  (no floating-point arithmetic occurs), so the value set is an opaque
  carrier; `Rat` contains all concrete literals used by the claims.
* `firebase::Variant`'s static and mutable strings (and blobs) are collapsed
  into a single constructor each: the SDK's comparison and equality treat a
  static and a mutable string with equal contents as the same value, and the
  converter maps both to the same `FieldValue`.
* `std::map<std::string, FieldValue>` (`MapFieldValue`) is represented as an
  association list whose entries are kept in strictly increasing key order;
  map literals from the source are written with their keys sorted, exactly
  as the `std::map` stores them, and `operator[]` assignment is `mfvInsert`.
* `std::map<Variant, Variant>` is represented as an association list; the
  SDK's comparator orders values by type-enum index and compares any two
  strings by contents, which `vmapInsert` mirrors for the string keys the
  converter inserts.
* `assert(false)` followed by `std::terminate()` is modelled by returning
  `none`; every conversion function therefore returns an `Option`.
* A default-constructed (invalid) `FieldValue` (`return {};`) is the
  constructor `FieldValue.empty`; a default-constructed `Variant` is null.
* `Firestore` is modelled by its single used capability: resolving a path
  string to a `DocumentReference` (the injected resolver).
-/

/-- A Firestore document reference, identified by its path string
(the only part of `DocumentReference` the converter uses). -/
structure DocumentReference where
  path : String
deriving DecidableEq

/-- The `Firestore` dependency, reduced to the one capability the converter
uses: `firestore_->Document(path)`. -/
def Firestore := String → DocumentReference

/-- `Firestore::Document`: resolve a path to a document reference. -/
def Firestore.Document (fs : Firestore) (p : String) : DocumentReference := fs p

/-- `firebase::Variant`: the dynamic value type.  Constructors are listed in
the SDK's type-enum order (null, int64, double, bool, string, vector, map,
blob); static/mutable strings and blobs are collapsed (see module comment). -/
inductive Variant where
  | null
  | int64 (i : Int)
  | double (d : Rat)
  | bool (b : Bool)
  | string (s : String)
  | vector (xs : List Variant)
  | map (m : List (Variant × Variant))
  | blob (bytes : List Nat)

/-- `firebase::firestore::FieldValue`.  `empty` is the default-constructed
(invalid) value produced by `return {};`. -/
inductive FieldValue where
  | empty
  | null
  | boolean (b : Bool)
  | integer (i : Int)
  | double (d : Rat)
  | string (s : String)
  | blob (bytes : List Nat)
  | array (xs : List FieldValue)
  | map (m : List (String × FieldValue))
  | timestamp (seconds nanoseconds : Int)
  | geoPoint (latitude longitude : Rat)
  | reference (ref : DocumentReference)
  | delete
  | serverTimestamp
  | arrayUnion
  | arrayRemove
  | incrementInteger
  | incrementDouble

/-- `Variant::is_string()`. -/
def Variant.is_string : Variant → Bool
  | .string _ => true
  | _ => false

/-- The SDK type-enum index of a `Variant`, used only to order map keys the
way the SDK's comparator does (strings sit between bool and vector). -/
def Variant.typeIdx : Variant → Nat
  | .null => 0
  | .int64 _ => 1
  | .double _ => 2
  | .bool _ => 3
  | .string _ => 4
  | .vector _ => 6
  | .map _ => 7
  | .blob _ => 8

/-- `std::map<Variant, Variant>::find(Variant(key))` for a string `key`:
under the SDK comparator a string key matches exactly the entry whose key is
a string with the same contents. -/
def vfind (m : List (Variant × Variant)) (key : String) : Option Variant :=
  match m with
  | [] => none
  | (Variant.string s, v) :: rest => if s = key then some v else vfind rest key
  | _ :: rest => vfind rest key

/-- `TryGetBoolean` on a map of `Variant`s: default `false` when the key is
absent or the value is not a bool. -/
def TryGetBoolean (src : List (Variant × Variant)) (key : String) : Bool :=
  match vfind src key with
  | some (Variant.bool b) => b
  | _ => false

/-- `TryGetInteger` on a map of `Variant`s: default `0`. -/
def TryGetInteger (src : List (Variant × Variant)) (key : String) : Int :=
  match vfind src key with
  | some (Variant.int64 i) => i
  | _ => 0

/-- `TryGetDouble` on a map of `Variant`s: default `0.0`. -/
def TryGetDouble (src : List (Variant × Variant)) (key : String) : Rat :=
  match vfind src key with
  | some (Variant.double d) => d
  | _ => 0

/-- `TryGetString` on a map of `Variant`s: default `""`. -/
def TryGetString (src : List (Variant × Variant)) (key : String) : String :=
  match vfind src key with
  | some (Variant.string s) => s
  | _ => ""

/-- `MapFieldValue::find`. -/
def mfvFind (m : List (String × FieldValue)) (key : String) : Option FieldValue :=
  match m with
  | [] => none
  | (k, v) :: rest => if k = key then some v else mfvFind rest key

/-- `TryGetBoolean` on a `MapFieldValue`. -/
def TryGetBooleanFV (src : List (String × FieldValue)) (key : String) : Bool :=
  match mfvFind src key with
  | some (FieldValue.boolean b) => b
  | _ => false

/-- `TryGetString` on a `MapFieldValue`. -/
def TryGetStringFV (src : List (String × FieldValue)) (key : String) : String :=
  match mfvFind src key with
  | some (FieldValue.string s) => s
  | _ => ""

/-- `TryGetArray` on a `MapFieldValue`: default `{}`. -/
def TryGetArray (src : List (String × FieldValue)) (key : String) : List FieldValue :=
  match mfvFind src key with
  | some (FieldValue.array xs) => xs
  | _ => []

/-- `MapFieldValue` `operator[]` assignment: insert or replace, keeping the
entries in increasing key order as `std::map` does. -/
def mfvInsert (key : String) (v : FieldValue) :
    List (String × FieldValue) → List (String × FieldValue)
  | [] => [(key, v)]
  | (k, w) :: rest =>
    if key < k then (key, v) :: (k, w) :: rest
    else if key = k then (key, v) :: rest
    else (k, w) :: mfvInsert key v rest

/-- `std::map<Variant, Variant>` `operator[]` assignment with a string key:
insert or replace, keeping entries ordered by the SDK comparator (strings
compare by contents; values of different type-enum index compare by index). -/
def vmapInsert (key : String) (v : Variant) :
    List (Variant × Variant) → List (Variant × Variant)
  | [] => [(Variant.string key, v)]
  | (k, w) :: rest =>
    match k with
    | Variant.string s =>
      if key < s then (Variant.string key, v) :: (Variant.string s, w) :: rest
      else if key = s then (Variant.string key, v) :: rest
      else (Variant.string s, w) :: vmapInsert key v rest
    | _ =>
      if 4 < k.typeIdx then (Variant.string key, v) :: (k, w) :: rest
      else (k, w) :: vmapInsert key v rest

/-- `Converter::ConvertSpecialValue` (the `Variant` -> `FieldValue`
direction): reconstruct a Firestore sentinel from a special map.
`return {};` yields the default (invalid) `FieldValue`, `.empty`. -/
def Converter.ConvertSpecialValue (fs : Firestore)
    (src : List (Variant × Variant)) : Option FieldValue :=
  let type := TryGetString src "type"
  if type = "" then some .empty
  else if type = "timestamp" then
    some (.timestamp (TryGetInteger src "seconds") (TryGetInteger src "nanoseconds"))
  else if type = "geo_point" then
    some (.geoPoint (TryGetDouble src "latitude") (TryGetDouble src "longitude"))
  else if type = "document_reference" then
    some (.reference (fs.Document (TryGetString src "document_path")))
  else if type = "delete" then some .delete
  else if type = "server_timestamp" then some .serverTimestamp
  else some .empty

mutual

/-- `Converter::ConvertAny`: dispatch on the `Variant` type.  The `default:
assert(false)` branch of the C++ switch is unreachable here because the
`Variant` union is closed. -/
def Converter.ConvertAny (fs : Firestore) : Variant → Bool → Option FieldValue
  | .null, _ => some .null
  | .bool b, _ => some (.boolean b)
  | .int64 i, _ => some (.integer i)
  | .double d, _ => some (.double d)
  | .string s, _ => some (.string s)
  | .blob bytes, _ => some (.blob bytes)
  | .vector xs, within_array => Converter.ConvertArray fs xs within_array
  | .map m, _ => Converter.ConvertMap fs m

/-- `Converter::ConvertArray` (`Variant` -> `FieldValue`): a nested array is
wrapped in the `nested_array` special map (keys written in `std::map`
order: special < type < value). -/
def Converter.ConvertArray (fs : Firestore) (src : List Variant)
    (within_array : Bool) : Option FieldValue :=
  if !within_array then Converter.ConvertRegularArray fs src
  else
    match Converter.ConvertRegularArray fs src with
    | some arr =>
      some (.map [("special", .boolean true), ("type", .string "nested_array"),
                  ("value", arr)])
    | none => none

/-- `Converter::ConvertRegularArray`. -/
def Converter.ConvertRegularArray (fs : Firestore) (src : List Variant) :
    Option FieldValue :=
  match Converter.ConvertElements fs src with
  | some result => some (.array result)
  | none => none

/-- The element loop of `Converter::ConvertRegularArray`: convert every
element with `within_array = true`. -/
def Converter.ConvertElements (fs : Firestore) : List Variant → Option (List FieldValue)
  | [] => some []
  | v :: rest =>
    match Converter.ConvertAny fs v true, Converter.ConvertElements fs rest with
    | some f, some tail => some (f :: tail)
    | _, _ => none

/-- `Converter::ConvertMap` (`Variant` -> `FieldValue`): maps carrying
`special = true` are dispatched to the special-value reconstruction. -/
def Converter.ConvertMap (fs : Firestore) (src : List (Variant × Variant)) :
    Option FieldValue :=
  if TryGetBoolean src "special" then Converter.ConvertSpecialValue fs src
  else Converter.ConvertRegularMap fs src

/-- `Converter::ConvertRegularMap` (`Variant` -> `FieldValue`). -/
def Converter.ConvertRegularMap (fs : Firestore) (src : List (Variant × Variant)) :
    Option FieldValue :=
  match Converter.ConvertMapEntries fs [] src with
  | some result => some (.map result)
  | none => none

/-- The entry loop of `Converter::ConvertRegularMap`: `assert` that every
key is a string (modelled as `none`, the abort), convert the value with
`ConvertVariantToFieldValue` (so `within_array` is reset to `false`), and
assign into the accumulated `MapFieldValue`. -/
def Converter.ConvertMapEntries (fs : Firestore) (acc : List (String × FieldValue)) :
    List (Variant × Variant) → Option (List (String × FieldValue))
  | [] => some acc
  | (k, v) :: rest =>
    match k with
    | Variant.string s =>
      match Converter.ConvertAny fs v false with
      | some f => Converter.ConvertMapEntries fs (mfvInsert s f acc) rest
      | none => none
    | _ => none

end

/-- `Converter::ConvertVariantToFieldValue`: the public encode entry point,
`ConvertAny` with `within_array = false`. -/
def Converter.ConvertVariantToFieldValue (fs : Firestore) (v : Variant) :
    Option FieldValue :=
  Converter.ConvertAny fs v false

mutual

/-- Termination measure for the decode direction: containers measure their
contents; the five Firestore sentinel types get a constant weight larger
than the special maps the decoder builds for them (at most four entries of
primitive values, measure 4). -/
def FieldValue.msize : FieldValue → Nat
  | .array xs => 1 + FieldValue.msizeArr xs
  | .map m => 1 + FieldValue.msizeMap m
  | .timestamp _ _ => 9
  | .geoPoint _ _ => 9
  | .reference _ => 9
  | .delete => 9
  | .serverTimestamp => 9
  | _ => 0

/-- Measure of a `FieldValue` list. -/
def FieldValue.msizeArr : List FieldValue → Nat
  | [] => 0
  | v :: rest => 1 + FieldValue.msize v + FieldValue.msizeArr rest

/-- Measure of a `MapFieldValue`. -/
def FieldValue.msizeMap : List (String × FieldValue) → Nat
  | [] => 0
  | (_, v) :: rest => 1 + FieldValue.msize v + FieldValue.msizeMap rest

end

theorem mfvFind_msize_lt (m : List (String × FieldValue)) (key : String)
    (v : FieldValue) (h : mfvFind m key = some v) :
    FieldValue.msize v < FieldValue.msizeMap m := by
  induction m with
  | nil => simp [mfvFind] at h
  | cons kv rest ih =>
    obtain ⟨k, w⟩ := kv
    simp only [mfvFind] at h
    by_cases hk : k = key
    · simp [hk] at h
      subst h
      simp [FieldValue.msizeMap]
      omega
    · simp [hk] at h
      have := ih h
      simp [FieldValue.msizeMap]
      omega

theorem msizeArr_TryGetArray_le (m : List (String × FieldValue)) (key : String) :
    FieldValue.msizeArr (TryGetArray m key) ≤ FieldValue.msizeMap m := by
  unfold TryGetArray
  rcases hfind : mfvFind m key with _ | v
  · simp [FieldValue.msizeArr]
  · rcases v with _ | _ | b | i | d | s | bs | xs | mm | ts | gp | r | _ | _ | _ | _ | _ | _ <;>
      simp [FieldValue.msizeArr]
    have := mfvFind_msize_lt m key _ hfind
    simp [FieldValue.msize] at this
    omega

mutual

/-- `Converter::ConvertFieldValueToVariant`: decode a `FieldValue` into a
`Variant`.  Sentinels become special maps (written with their keys in
`std::map` order); the merge-only variants hit `assert(false)` in the
source, modelled as `none`; so does the `default:` branch, reachable only
for the invalid (default-constructed) `FieldValue`. -/
def Converter.ConvertFieldValueToVariant (fs : Firestore) : FieldValue → Option Variant
  | .null => some .null
  | .boolean b => some (.bool b)
  | .integer i => some (.int64 i)
  | .double d => some (.double d)
  | .string s => some (.string s)
  | .blob bytes => some (.blob bytes)
  | .array xs => Converter.ConvertArrayToVariant fs xs
  | .map m => Converter.ConvertMapToVariant fs m
  | .timestamp s n =>
    Converter.ConvertRegularMapToVariant fs []
      [("nanoseconds", .integer n), ("seconds", .integer s),
       ("special", .boolean true), ("type", .string "timestamp")]
  | .geoPoint la lo =>
    Converter.ConvertRegularMapToVariant fs []
      [("latitude", .double la), ("longitude", .double lo),
       ("special", .boolean true), ("type", .string "geo_point")]
  | .reference r =>
    Converter.ConvertRegularMapToVariant fs []
      [("document_path", .string r.path),
       ("special", .boolean true), ("type", .string "document_reference")]
  | .delete =>
    Converter.ConvertRegularMapToVariant fs []
      [("special", .boolean true), ("type", .string "delete")]
  | .serverTimestamp =>
    Converter.ConvertRegularMapToVariant fs []
      [("special", .boolean true), ("type", .string "server_timestamp")]
  | .arrayUnion => none
  | .arrayRemove => none
  | .incrementInteger => none
  | .incrementDouble => none
  | .empty => none
termination_by fv => (FieldValue.msize fv, 0)
decreasing_by
  all_goals simp [FieldValue.msize, FieldValue.msizeArr, FieldValue.msizeMap]
  all_goals (apply Prod.Lex.left; omega)

/-- The element loop of `Converter::ConvertArray`
(`FieldValue` -> `Variant`). -/
def Converter.ConvertElementsToVariant (fs : Firestore) :
    List FieldValue → Option (List Variant)
  | [] => some []
  | v :: rest =>
    match Converter.ConvertFieldValueToVariant fs v,
          Converter.ConvertElementsToVariant fs rest with
    | some a, some tail => some (a :: tail)
    | _, _ => none
termination_by xs => (FieldValue.msizeArr xs, 0)
decreasing_by
  all_goals simp [FieldValue.msize, FieldValue.msizeArr, FieldValue.msizeMap]
  all_goals (apply Prod.Lex.left; omega)

/-- `Converter::ConvertArray` (`FieldValue` -> `Variant`). -/
def Converter.ConvertArrayToVariant (fs : Firestore) (src : List FieldValue) :
    Option Variant :=
  match Converter.ConvertElementsToVariant fs src with
  | some result => some (.vector result)
  | none => none
termination_by (FieldValue.msizeArr src, 1)
decreasing_by
  all_goals (apply Prod.Lex.right; omega)

/-- `Converter::ConvertMap` (`FieldValue` -> `Variant`): maps carrying
`special = true` go through the special-value path (which round-trips
nested arrays). -/
def Converter.ConvertMapToVariant (fs : Firestore) (src : List (String × FieldValue)) :
    Option Variant :=
  if TryGetBooleanFV src "special" then Converter.ConvertSpecialValueToVariant fs src
  else Converter.ConvertRegularMapToVariant fs [] src
termination_by (FieldValue.msizeMap src, 4)
decreasing_by
  all_goals (apply Prod.Lex.right; omega)

/-- The entry loop of `Converter::ConvertRegularMap`
(`FieldValue` -> `Variant`): convert each value and assign it into the
accumulated `std::map<Variant, Variant>` under the string key. -/
def Converter.ConvertRegularMapToVariant (fs : Firestore)
    (acc : List (Variant × Variant)) :
    List (String × FieldValue) → Option Variant
  | [] => some (.map acc)
  | (k, v) :: rest =>
    match Converter.ConvertFieldValueToVariant fs v with
    | some dv => Converter.ConvertRegularMapToVariant fs (vmapInsert k dv acc) rest
    | none => none
termination_by m => (FieldValue.msizeMap m, 3)
decreasing_by
  all_goals simp [FieldValue.msize, FieldValue.msizeArr, FieldValue.msizeMap]
  all_goals (apply Prod.Lex.left; omega)

/-- `Converter::ConvertSpecialValue` (`FieldValue` -> `Variant`): only the
`nested_array` kind is meaningful on this path; a missing or any other
`type` yields a default-constructed `Variant`, which is null. -/
def Converter.ConvertSpecialValueToVariant (fs : Firestore)
    (src : List (String × FieldValue)) : Option Variant :=
  let type := TryGetStringFV src "type"
  if type = "" then some .null
  else if type = "nested_array" then
    Converter.ConvertArrayToVariant fs (TryGetArray src "value")
  else some .null
termination_by (FieldValue.msizeMap src, 2)
decreasing_by
  all_goals
    (have h := msizeArr_TryGetArray_le src "value"
     rcases Nat.lt_or_ge (FieldValue.msizeArr (TryGetArray src "value"))
       (FieldValue.msizeMap src) with hlt | hge
     · exact Prod.Lex.left _ _ hlt
     · have heq : FieldValue.msizeArr (TryGetArray src "value") =
         FieldValue.msizeMap src := Nat.le_antisymm h hge
       rw [heq]
       exact Prod.Lex.right _ (by omega))

end

/-- `Variant::is_map()`. -/
def Variant.is_map : Variant → Bool
  | .map _ => true
  | _ => false

/-- A concrete resolver standing in for the test's `TestFirestore()`:
resolves a path to the document reference with that path. -/
def testFirestore : Firestore := fun p => ⟨p⟩

mutual

/-- Every map occurring anywhere inside a `Variant` uses only string keys
(the precondition of the encoder's regular-map path). -/
def Variant.stringKeys : Variant → Bool
  | .vector xs => Variant.stringKeysArr xs
  | .map m => Variant.stringKeysMap m
  | _ => true

/-- `stringKeys` for every element of a list. -/
def Variant.stringKeysArr : List Variant → Bool
  | [] => true
  | v :: rest => Variant.stringKeys v && Variant.stringKeysArr rest

/-- Keys are strings and `stringKeys` holds of every value. -/
def Variant.stringKeysMap : List (Variant × Variant) → Bool
  | [] => true
  | (k, v) :: rest => k.is_string && Variant.stringKeys v && Variant.stringKeysMap rest

end

/-- Claim C2: encoding the `Variant` `[["abc"]]` produces an FV array of
length 1 whose sole element is the map `{special: true, type:
"nested_array", value: ["abc"]}`, and decoding that structure reproduces
`[["abc"]]` exactly. -/
theorem claimC2 (fs : Firestore) :
    Converter.ConvertVariantToFieldValue fs
      (Variant.vector [Variant.vector [Variant.string "abc"]]) =
      some (FieldValue.array
        [FieldValue.map [("special", FieldValue.boolean true),
                         ("type", FieldValue.string "nested_array"),
                         ("value", FieldValue.array [FieldValue.string "abc"])]]) ∧
    Converter.ConvertFieldValueToVariant fs
      (FieldValue.array
        [FieldValue.map [("special", FieldValue.boolean true),
                         ("type", FieldValue.string "nested_array"),
                         ("value", FieldValue.array [FieldValue.string "abc"])]]) =
      some (Variant.vector [Variant.vector [Variant.string "abc"]]) := by
  constructor
  · simp [Converter.ConvertVariantToFieldValue, Converter.ConvertAny,
          Converter.ConvertArray, Converter.ConvertRegularArray,
          Converter.ConvertElements]
  · simp +decide [Converter.ConvertFieldValueToVariant,
          Converter.ConvertArrayToVariant, Converter.ConvertElementsToVariant,
          Converter.ConvertMapToVariant, Converter.ConvertSpecialValueToVariant,
          TryGetBooleanFV, TryGetStringFV, TryGetArray, mfvFind]

/-- Claim C4: decoding any of the merge-only sentinels (`ArrayUnion`,
`ArrayRemove`, `IncrementInteger`, `IncrementDouble`) hits `assert(false)`:
the conversion aborts (returns `none`) and never produces a value. -/
theorem claimC4 (fs : Firestore) :
    Converter.ConvertFieldValueToVariant fs FieldValue.arrayUnion = none ∧
    Converter.ConvertFieldValueToVariant fs FieldValue.arrayRemove = none ∧
    Converter.ConvertFieldValueToVariant fs FieldValue.incrementInteger = none ∧
    Converter.ConvertFieldValueToVariant fs FieldValue.incrementDouble = none := by
  refine ⟨?_, ?_, ?_, ?_⟩ <;> simp [Converter.ConvertFieldValueToVariant]

/-- Claim C6: all six primitive `Variant` kinds survive an encode/decode
round-trip unchanged, and symmetrically all six primitive `FieldValue`
kinds survive a decode/encode round-trip unchanged. -/
theorem claimC6 (fs : Firestore) :
    ((Converter.ConvertVariantToFieldValue fs Variant.null).bind
        (Converter.ConvertFieldValueToVariant fs) = some Variant.null) ∧
    (∀ b, (Converter.ConvertVariantToFieldValue fs (Variant.bool b)).bind
        (Converter.ConvertFieldValueToVariant fs) = some (Variant.bool b)) ∧
    (∀ i, (Converter.ConvertVariantToFieldValue fs (Variant.int64 i)).bind
        (Converter.ConvertFieldValueToVariant fs) = some (Variant.int64 i)) ∧
    (∀ d, (Converter.ConvertVariantToFieldValue fs (Variant.double d)).bind
        (Converter.ConvertFieldValueToVariant fs) = some (Variant.double d)) ∧
    (∀ s, (Converter.ConvertVariantToFieldValue fs (Variant.string s)).bind
        (Converter.ConvertFieldValueToVariant fs) = some (Variant.string s)) ∧
    (∀ bytes, (Converter.ConvertVariantToFieldValue fs (Variant.blob bytes)).bind
        (Converter.ConvertFieldValueToVariant fs) = some (Variant.blob bytes)) ∧
    ((Converter.ConvertFieldValueToVariant fs FieldValue.null).bind
        (Converter.ConvertVariantToFieldValue fs) = some FieldValue.null) ∧
    (∀ b, (Converter.ConvertFieldValueToVariant fs (FieldValue.boolean b)).bind
        (Converter.ConvertVariantToFieldValue fs) = some (FieldValue.boolean b)) ∧
    (∀ i, (Converter.ConvertFieldValueToVariant fs (FieldValue.integer i)).bind
        (Converter.ConvertVariantToFieldValue fs) = some (FieldValue.integer i)) ∧
    (∀ d, (Converter.ConvertFieldValueToVariant fs (FieldValue.double d)).bind
        (Converter.ConvertVariantToFieldValue fs) = some (FieldValue.double d)) ∧
    (∀ s, (Converter.ConvertFieldValueToVariant fs (FieldValue.string s)).bind
        (Converter.ConvertVariantToFieldValue fs) = some (FieldValue.string s)) ∧
    (∀ bytes, (Converter.ConvertFieldValueToVariant fs (FieldValue.blob bytes)).bind
        (Converter.ConvertVariantToFieldValue fs) = some (FieldValue.blob bytes)) := by
  refine ⟨?_, ?_, ?_, ?_, ?_, ?_, ?_, ?_, ?_, ?_, ?_, ?_⟩ <;>
    intros <;>
    simp [Converter.ConvertVariantToFieldValue, Converter.ConvertAny,
          Converter.ConvertFieldValueToVariant]

/-- Claim C7: a `Variant` map carrying `special = true` whose `type` is
missing or is not one of the five recognized sentinel kinds encodes to the
default (invalid) `FieldValue` instead of aborting. -/
theorem claimC7 (fs : Firestore) (m : List (Variant × Variant))
    (hsp : TryGetBoolean m "special" = true)
    (ht1 : TryGetString m "type" ≠ "timestamp")
    (ht2 : TryGetString m "type" ≠ "geo_point")
    (ht3 : TryGetString m "type" ≠ "document_reference")
    (ht4 : TryGetString m "type" ≠ "delete")
    (ht5 : TryGetString m "type" ≠ "server_timestamp") :
    Converter.ConvertVariantToFieldValue fs (Variant.map m) = some FieldValue.empty := by
  have h1 : Converter.ConvertVariantToFieldValue fs (Variant.map m) =
      Converter.ConvertMap fs m := by
    simp [Converter.ConvertVariantToFieldValue, Converter.ConvertAny]
  have h2 : Converter.ConvertMap fs m = Converter.ConvertSpecialValue fs m := by
    unfold Converter.ConvertMap
    rw [hsp]
    simp
  rw [h1, h2]
  unfold Converter.ConvertSpecialValue
  dsimp only
  split_ifs <;> simp_all

/-- Witness for C7 at the concrete map `{special: true, type: "bogus"}`. -/
theorem claimC7_witness :
    Converter.ConvertVariantToFieldValue testFirestore
      (Variant.map [(Variant.string "special", Variant.bool true),
                    (Variant.string "type", Variant.string "bogus")]) =
      some FieldValue.empty :=
  claimC7 testFirestore _
    (by simp +decide [TryGetBoolean, vfind])
    (by simp +decide [TryGetString, vfind])
    (by simp +decide [TryGetString, vfind])
    (by simp +decide [TryGetString, vfind])
    (by simp +decide [TryGetString, vfind])
    (by simp +decide [TryGetString, vfind])

/-- Claim C8: every field lookup helper returns the zero-value default of
its type whenever the key is absent or the value under the key has a
different type; the helpers are total functions and never fail. -/
theorem claimC8 :
    (∀ m key, (∀ b, vfind m key ≠ some (Variant.bool b)) →
      TryGetBoolean m key = false) ∧
    (∀ m key, (∀ i, vfind m key ≠ some (Variant.int64 i)) →
      TryGetInteger m key = 0) ∧
    (∀ m key, (∀ d, vfind m key ≠ some (Variant.double d)) →
      TryGetDouble m key = 0) ∧
    (∀ m key, (∀ s, vfind m key ≠ some (Variant.string s)) →
      TryGetString m key = "") ∧
    (∀ m key, (∀ b, mfvFind m key ≠ some (FieldValue.boolean b)) →
      TryGetBooleanFV m key = false) ∧
    (∀ m key, (∀ s, mfvFind m key ≠ some (FieldValue.string s)) →
      TryGetStringFV m key = "") ∧
    (∀ m key, (∀ xs, mfvFind m key ≠ some (FieldValue.array xs)) →
      TryGetArray m key = []) := by
  refine ⟨?_, ?_, ?_, ?_, ?_, ?_, ?_⟩ <;> intro m key h
  · unfold TryGetBoolean
    rcases hf : vfind m key with _ | v
    · rfl
    · rcases v with _ | i | d | b | s | xs | mm | bs <;> simp_all
  · unfold TryGetInteger
    rcases hf : vfind m key with _ | v
    · rfl
    · rcases v with _ | i | d | b | s | xs | mm | bs <;> simp_all
  · unfold TryGetDouble
    rcases hf : vfind m key with _ | v
    · rfl
    · rcases v with _ | i | d | b | s | xs | mm | bs <;> simp_all
  · unfold TryGetString
    rcases hf : vfind m key with _ | v
    · rfl
    · rcases v with _ | i | d | b | s | xs | mm | bs <;> simp_all
  · unfold TryGetBooleanFV
    rcases hf : mfvFind m key with _ | v
    · rfl
    · rcases v with _ | _ | b | i | d | s | bs | xs | mm | ts | gp | r | _ | _ | _ | _ | _ | _ <;>
        simp_all
  · unfold TryGetStringFV
    rcases hf : mfvFind m key with _ | v
    · rfl
    · rcases v with _ | _ | b | i | d | s | bs | xs | mm | ts | gp | r | _ | _ | _ | _ | _ | _ <;>
        simp_all
  · unfold TryGetArray
    rcases hf : mfvFind m key with _ | v
    · rfl
    · rcases v with _ | _ | b | i | d | s | bs | xs | mm | ts | gp | r | _ | _ | _ | _ | _ | _ <;>
        simp_all

/-- Witness for C8: each helper applied to the empty map (key absent) and to
a map whose value under the key has the wrong type. -/
theorem claimC8_witness :
    TryGetBoolean [] "k" = false ∧
    TryGetInteger [(Variant.string "k", Variant.bool true)] "k" = 0 ∧
    TryGetDouble [] "k" = 0 ∧
    TryGetString [(Variant.string "k", Variant.int64 3)] "k" = "" ∧
    TryGetBooleanFV [] "k" = false ∧
    TryGetStringFV [("k", FieldValue.integer 3)] "k" = "" ∧
    TryGetArray [] "k" = [] :=
  ⟨claimC8.1 [] "k" (by simp [vfind]),
   claimC8.2.1 [(Variant.string "k", Variant.bool true)] "k"
     (by simp +decide [vfind]),
   claimC8.2.2.1 [] "k" (by simp [vfind]),
   claimC8.2.2.2.1 [(Variant.string "k", Variant.int64 3)] "k"
     (by simp +decide [vfind]),
   claimC8.2.2.2.2.1 [] "k" (by simp [mfvFind]),
   claimC8.2.2.2.2.2.1 [("k", FieldValue.integer 3)] "k"
     (by simp +decide [mfvFind]),
   claimC8.2.2.2.2.2.2 [] "k" (by simp [mfvFind])⟩

/-- Counterexample to claim C3: the `FieldValue` map `{special: true, type:
"bogus"}` decodes to the null `Variant` (the default-constructed `Variant`
returned by the special-value path), not to a regular `Variant` map of its
decoded entries. -/
theorem claimC3_counterexample :
    Converter.ConvertFieldValueToVariant testFirestore
      (FieldValue.map [("special", FieldValue.boolean true),
                       ("type", FieldValue.string "bogus")]) =
      some Variant.null ∧
    Variant.is_map Variant.null = false := by
  constructor
  · simp +decide [Converter.ConvertFieldValueToVariant, Converter.ConvertMapToVariant,
        Converter.ConvertSpecialValueToVariant, TryGetBooleanFV, TryGetStringFV, mfvFind]
  · rfl

/-- Claim C3 as amended: a `FieldValue` map carrying `special = true` whose
`type` is anything other than `"nested_array"` (including a missing `type`)
decodes to the default-constructed `Variant`, which is null; it is *not*
decoded as a regular map of decoded entries. -/
theorem claimC3_amended (fs : Firestore) (m : List (String × FieldValue))
    (hsp : TryGetBooleanFV m "special" = true)
    (hna : TryGetStringFV m "type" ≠ "nested_array") :
    Converter.ConvertFieldValueToVariant fs (FieldValue.map m) = some Variant.null := by
  have h1 : Converter.ConvertFieldValueToVariant fs (FieldValue.map m) =
      Converter.ConvertMapToVariant fs m := by
    simp [Converter.ConvertFieldValueToVariant]
  have h2 : Converter.ConvertMapToVariant fs m =
      Converter.ConvertSpecialValueToVariant fs m := by
    unfold Converter.ConvertMapToVariant
    rw [hsp]
    simp
  rw [h1, h2]
  unfold Converter.ConvertSpecialValueToVariant
  dsimp only
  split_ifs <;> simp_all

/-- Witness for the amended C3 at the concrete map
`{special: true, type: "bogus"}`. -/
theorem claimC3_amended_witness :
    Converter.ConvertFieldValueToVariant testFirestore
      (FieldValue.map [("special", FieldValue.boolean true),
                       ("type", FieldValue.string "bogus")]) =
      some Variant.null :=
  claimC3_amended testFirestore _
    (by simp +decide [TryGetBooleanFV, mfvFind])
    (by simp +decide [TryGetStringFV, mfvFind])

/-- Counterexample to claim C5: the `Variant` map `{special: true, 7:
null}` contains a non-string key, yet `ConvertVariantToFieldValue` does not
abort: the `special = true` entry routes the map to the special-value path,
which never inspects the keys and returns the default `FieldValue`. -/
theorem claimC5_counterexample :
    Converter.ConvertVariantToFieldValue testFirestore
      (Variant.map [(Variant.string "special", Variant.bool true),
                    (Variant.int64 7, Variant.null)]) =
      some FieldValue.empty := by
  simp +decide [Converter.ConvertVariantToFieldValue, Converter.ConvertAny,
      Converter.ConvertMap, Converter.ConvertSpecialValue,
      TryGetBoolean, TryGetString, vfind]

/-- The entry loop of the encoder's regular-map path aborts whenever some
entry has a non-string key. -/
theorem ConvertMapEntries_none_of_nonstring (fs : Firestore) :
    ∀ (m : List (Variant × Variant)) (acc : List (String × FieldValue)),
      (∃ kv ∈ m, kv.1.is_string = false) →
      Converter.ConvertMapEntries fs acc m = none := by
  intro m
  induction m with
  | nil => intro acc h; simp at h
  | cons kv rest ih =>
    intro acc h
    obtain ⟨k, v⟩ := kv
    unfold Converter.ConvertMapEntries
    rcases hk : k with _ | i | d | b | s | xs | mm | bs
    all_goals first
      | rfl
      | (rcases h with ⟨kv₀, hmem, hks⟩
         rcases List.mem_cons.mp hmem with heq | hrest
         · subst heq; simp [hk, Variant.is_string] at hks
         · rcases hconv : Converter.ConvertAny fs v false with _ | f
           · rfl
           · exact ih _ ⟨kv₀, hrest, hks⟩)

/-- Claim C5 as amended: for every `Variant` map that does *not* carry
`special = true` (so it takes the regular-map path) and contains at least
one non-string key, `ConvertVariantToFieldValue` aborts; it never silently
drops or coerces the key.  (A map that does carry `special = true` is
instead consumed by the special-value path, which ignores its keys — see
the counterexample.) -/
theorem claimC5_amended (fs : Firestore) (m : List (Variant × Variant))
    (hsp : TryGetBoolean m "special" = false)
    (hk : ∃ kv ∈ m, kv.1.is_string = false) :
    Converter.ConvertVariantToFieldValue fs (Variant.map m) = none := by
  have h1 : Converter.ConvertVariantToFieldValue fs (Variant.map m) =
      Converter.ConvertMap fs m := by
    simp [Converter.ConvertVariantToFieldValue, Converter.ConvertAny]
  rw [h1]
  unfold Converter.ConvertMap
  rw [hsp]
  simp only [Bool.false_eq_true, if_false]
  unfold Converter.ConvertRegularMap
  rw [ConvertMapEntries_none_of_nonstring fs m [] hk]

/-- Witness for the amended C5 at the concrete map `{"a": 1, 7: null}`. -/
theorem claimC5_amended_witness :
    Converter.ConvertVariantToFieldValue testFirestore
      (Variant.map [(Variant.string "a", Variant.int64 1),
                    (Variant.int64 7, Variant.null)]) = none :=
  claimC5_amended testFirestore _
    (by simp +decide [TryGetBoolean, vfind])
    ⟨(Variant.int64 7, Variant.null), by simp, rfl⟩

/-- Claim C1: each Firestore sentinel — `Timestamp(123, 456)`,
`GeoPoint(43.0, 80.0)`, `Reference("foo/bar")`, `Delete`,
`ServerTimestamp` — decodes to a `Variant` map with `special = true`, the
correct `type` string and the correct payload fields, and encoding that map
back reproduces the original `FieldValue`; in the reference case the
injected resolver is invoked with exactly the path string `"foo/bar"`.
The hypothesis is the SDK contract that `Document(p)` yields a reference
whose path is `p`. -/
theorem claimC1 (fs : Firestore)
    (href : (fs.Document "foo/bar").path = "foo/bar") :
    (∃ dm, Converter.ConvertFieldValueToVariant fs (FieldValue.timestamp 123 456) =
        some (Variant.map dm) ∧
      TryGetBoolean dm "special" = true ∧
      TryGetString dm "type" = "timestamp" ∧
      TryGetInteger dm "seconds" = 123 ∧
      TryGetInteger dm "nanoseconds" = 456 ∧
      Converter.ConvertVariantToFieldValue fs (Variant.map dm) =
        some (FieldValue.timestamp 123 456)) ∧
    (∃ dm, Converter.ConvertFieldValueToVariant fs (FieldValue.geoPoint 43 80) =
        some (Variant.map dm) ∧
      TryGetBoolean dm "special" = true ∧
      TryGetString dm "type" = "geo_point" ∧
      TryGetDouble dm "latitude" = 43 ∧
      TryGetDouble dm "longitude" = 80 ∧
      Converter.ConvertVariantToFieldValue fs (Variant.map dm) =
        some (FieldValue.geoPoint 43 80)) ∧
    (∃ dm, Converter.ConvertFieldValueToVariant fs
        (FieldValue.reference (fs.Document "foo/bar")) = some (Variant.map dm) ∧
      TryGetBoolean dm "special" = true ∧
      TryGetString dm "type" = "document_reference" ∧
      TryGetString dm "document_path" = "foo/bar" ∧
      Converter.ConvertVariantToFieldValue fs (Variant.map dm) =
        some (FieldValue.reference (fs.Document "foo/bar"))) ∧
    (∃ dm, Converter.ConvertFieldValueToVariant fs FieldValue.delete =
        some (Variant.map dm) ∧
      TryGetBoolean dm "special" = true ∧
      TryGetString dm "type" = "delete" ∧
      Converter.ConvertVariantToFieldValue fs (Variant.map dm) =
        some FieldValue.delete) ∧
    (∃ dm, Converter.ConvertFieldValueToVariant fs FieldValue.serverTimestamp =
        some (Variant.map dm) ∧
      TryGetBoolean dm "special" = true ∧
      TryGetString dm "type" = "server_timestamp" ∧
      Converter.ConvertVariantToFieldValue fs (Variant.map dm) =
        some FieldValue.serverTimestamp) := by
  refine ⟨⟨[(Variant.string "nanoseconds", Variant.int64 456),
            (Variant.string "seconds", Variant.int64 123),
            (Variant.string "special", Variant.bool true),
            (Variant.string "type", Variant.string "timestamp")], ?_, ?_, ?_, ?_, ?_, ?_⟩,
          ⟨[(Variant.string "latitude", Variant.double 43),
            (Variant.string "longitude", Variant.double 80),
            (Variant.string "special", Variant.bool true),
            (Variant.string "type", Variant.string "geo_point")], ?_, ?_, ?_, ?_, ?_, ?_⟩,
          ⟨[(Variant.string "document_path", Variant.string "foo/bar"),
            (Variant.string "special", Variant.bool true),
            (Variant.string "type", Variant.string "document_reference")], ?_, ?_, ?_, ?_, ?_⟩,
          ⟨[(Variant.string "special", Variant.bool true),
            (Variant.string "type", Variant.string "delete")], ?_, ?_, ?_, ?_⟩,
          ⟨[(Variant.string "special", Variant.bool true),
            (Variant.string "type", Variant.string "server_timestamp")], ?_, ?_, ?_, ?_⟩⟩
  all_goals first
    | (simp +decide [Converter.ConvertFieldValueToVariant,
         Converter.ConvertRegularMapToVariant, vmapInsert, href])
    | (simp +decide [TryGetBoolean, TryGetString, TryGetInteger, TryGetDouble, vfind])
    | (simp +decide [Converter.ConvertVariantToFieldValue, Converter.ConvertAny,
         Converter.ConvertMap, Converter.ConvertSpecialValue,
         TryGetBoolean, TryGetString, TryGetInteger, TryGetDouble, vfind])

/-- Witness for C1: the concrete resolver satisfies the `Document` path
contract, and the timestamp clause holds for it. -/
theorem claimC1_witness :
    (testFirestore.Document "foo/bar").path = "foo/bar" ∧
    (∃ dm, Converter.ConvertFieldValueToVariant testFirestore
        (FieldValue.timestamp 123 456) = some (Variant.map dm) ∧
      TryGetBoolean dm "special" = true ∧
      TryGetString dm "type" = "timestamp" ∧
      TryGetInteger dm "seconds" = 123 ∧
      TryGetInteger dm "nanoseconds" = 456 ∧
      Converter.ConvertVariantToFieldValue testFirestore (Variant.map dm) =
        some (FieldValue.timestamp 123 456)) :=
  ⟨rfl, (claimC1 testFirestore rfl).1⟩

theorem mfvFind_insert_self (k : String) (v : FieldValue) :
    ∀ l, mfvFind (mfvInsert k v l) k = some v := by
  intro l
  induction l with
  | nil => simp [mfvInsert, mfvFind]
  | cons kv rest ih =>
    obtain ⟨k', w⟩ := kv
    unfold mfvInsert
    split_ifs with h1 h2
    · simp [mfvFind]
    · simp [mfvFind]
    · have hne : k' ≠ k := fun h => h2 h.symm
      simp [mfvFind, hne, ih]

theorem mfvFind_insert_ne (k' k : String) (hne : k' ≠ k) (v : FieldValue) :
    ∀ l, mfvFind (mfvInsert k' v l) k = mfvFind l k := by
  intro l
  induction l with
  | nil => simp [mfvInsert, mfvFind, hne]
  | cons kv rest ih =>
    obtain ⟨k₀, w⟩ := kv
    unfold mfvInsert
    split_ifs with h1 h2
    · simp [mfvFind, hne]
    · subst h2
      simp [mfvFind, hne]
    · simp [mfvFind, ih]

/-- The encoder's special-value path never produces a `FieldValue` map. -/
theorem ConvertSpecialValue_ne_map (fs : Firestore) (src : List (Variant × Variant))
    (res : List (String × FieldValue)) :
    Converter.ConvertSpecialValue fs src ≠ some (FieldValue.map res) := by
  unfold Converter.ConvertSpecialValue
  dsimp only
  split_ifs <;> simp

/-- Inversion: a successful step of the encoder's map-entry loop on a cons
cell means the key was a string, the value converted, and the loop
succeeded on the tail with the updated accumulator. -/
theorem ConvertMapEntries_cons_success (fs : Firestore) (k₀ v₀ : Variant)
    (rest : List (Variant × Variant)) (acc res : List (String × FieldValue))
    (h : Converter.ConvertMapEntries fs acc ((k₀, v₀) :: rest) = some res) :
    ∃ s f, k₀ = Variant.string s ∧ Converter.ConvertAny fs v₀ false = some f ∧
      Converter.ConvertMapEntries fs (mfvInsert s f acc) rest = some res := by
  unfold Converter.ConvertMapEntries at h
  rcases k₀ with _ | i | d | b | s | xs | mm | bs <;> simp at h
  rcases hEa : Converter.ConvertAny fs v₀ false with _ | f <;> rw [hEa] at h
  · exact absurd h (by simp)
  · exact ⟨s, f, rfl, rfl, h⟩

/-- Folding further entries whose keys differ from `.string k` over the
accumulated map leaves the binding of `k` unchanged. -/
theorem ConvertMapEntries_find_frozen (fs : Firestore) (k : String) :
    ∀ (rest : List (Variant × Variant)) (acc : List (String × FieldValue))
      (res : List (String × FieldValue)),
      (∀ kv ∈ rest, kv.1 ≠ Variant.string k) →
      Converter.ConvertMapEntries fs acc rest = some res →
      mfvFind res k = mfvFind acc k := by
  intro rest
  induction rest with
  | nil =>
    intro acc res _ hconv
    unfold Converter.ConvertMapEntries at hconv
    simp at hconv
    subst hconv
    rfl
  | cons kv tail ih =>
    intro acc res hne hconv
    obtain ⟨k₀, v₀⟩ := kv
    obtain ⟨s, f, hk, hEa, hrec⟩ :=
      ConvertMapEntries_cons_success fs k₀ v₀ tail acc res hconv
    have hsne : s ≠ k := by
      intro hcontra
      exact hne (k₀, v₀) (List.mem_cons_self _ _) (by rw [hk, hcontra])
    have := ih (mfvInsert s f acc) res
      (fun kv hm => hne kv (List.mem_cons_of_mem _ hm)) hrec
    rw [this, mfvFind_insert_ne s k hsne]

/-- In a successful regular-map encode with pairwise-distinct keys, the
entry under a string key `k` holding a `Variant` list `L` is converted as a
plain `FieldValue` array of the converted elements of `L` (no
`nested_array` wrapping: `ConvertVariantToFieldValue` resets
`within_array`). -/
theorem ConvertMapEntries_find (fs : Firestore) (k : String) (L : List Variant) :
    ∀ (m : List (Variant × Variant)) (acc res : List (String × FieldValue)),
      m.Pairwise (fun a b => a.1 ≠ b.1) →
      (Variant.string k, Variant.vector L) ∈ m →
      Converter.ConvertMapEntries fs acc m = some res →
      ∃ fvs, Converter.ConvertElements fs L = some fvs ∧
        mfvFind res k = some (FieldValue.array fvs) := by
  intro m
  induction m with
  | nil => intro acc res _ hmem; simp at hmem
  | cons kv rest ih =>
    intro acc res hwf hmem hconv
    obtain ⟨k₀, v₀⟩ := kv
    rw [List.pairwise_cons] at hwf
    obtain ⟨hhead, htail⟩ := hwf
    obtain ⟨s, f, hk, hEa, hrec⟩ :=
      ConvertMapEntries_cons_success fs k₀ v₀ rest acc res hconv
    rcases List.mem_cons.mp hmem with heq | hrest
    · have hk₀ : k₀ = Variant.string k := congrArg Prod.fst heq.symm
      have hv₀ : v₀ = Variant.vector L := congrArg Prod.snd heq.symm
      subst hk₀
      subst hv₀
      have hsk : s = k := by
        have := hk.symm
        injection this
      subst hsk
      have harr : Converter.ConvertAny fs (Variant.vector L) false =
          Converter.ConvertRegularArray fs L := by
        simp [Converter.ConvertAny, Converter.ConvertArray]
      rw [harr] at hEa
      unfold Converter.ConvertRegularArray at hEa
      rcases hE : Converter.ConvertElements fs L with _ | fvs <;> rw [hE] at hEa
      · exact absurd hEa (by simp)
      · refine ⟨fvs, rfl, ?_⟩
        have hf : f = FieldValue.array fvs := by
          simpa using hEa.symm
        subst hf
        have hfrozen := ConvertMapEntries_find_frozen fs s rest
          (mfvInsert s (FieldValue.array fvs) acc) res
          (fun kv hm => (hhead kv hm).symm) hrec
        rw [hfrozen, mfvFind_insert_self]
    · exact ih (mfvInsert s f acc) res htail hrest hrec

/-- Claim C10: `within_array` is reset at every map boundary on the encode
path.  A `Variant` list stored as a value inside a `Variant` map (with
pairwise-distinct keys, the `std::map` invariant) is encoded as a plain
`FieldValue` array of its converted elements — never as the `nested_array`
special wrapper — and a `Variant` map encodes identically whether or not it
is itself an element of an enclosing list (`ConvertAny` ignores
`within_array` for maps). -/
theorem claimC10 (fs : Firestore) (m : List (Variant × Variant))
    (hwf : m.Pairwise (fun a b => a.1 ≠ b.1))
    (res : List (String × FieldValue))
    (hconv : Converter.ConvertVariantToFieldValue fs (Variant.map m) =
      some (FieldValue.map res))
    (k : String) (L : List Variant)
    (hmem : (Variant.string k, Variant.vector L) ∈ m) :
    (∃ fvs, Converter.ConvertElements fs L = some fvs ∧
      mfvFind res k = some (FieldValue.array fvs)) ∧
    (∀ w, Converter.ConvertAny fs (Variant.map m) w =
      Converter.ConvertAny fs (Variant.map m) false) := by
  constructor
  · have h1 : Converter.ConvertVariantToFieldValue fs (Variant.map m) =
        Converter.ConvertMap fs m := by
      simp [Converter.ConvertVariantToFieldValue, Converter.ConvertAny]
    rw [h1] at hconv
    unfold Converter.ConvertMap at hconv
    rcases hsp : TryGetBoolean m "special" <;> rw [hsp] at hconv
    · simp only [Bool.false_eq_true, if_false] at hconv
      unfold Converter.ConvertRegularMap at hconv
      rcases hME : Converter.ConvertMapEntries fs [] m with _ | res' <;>
        rw [hME] at hconv
      · exact absurd hconv (by simp)
      · have hres : res' = res := by simpa using hconv
        subst hres
        exact ConvertMapEntries_find fs k L m [] res' hwf hmem hME
    · simp only [if_true] at hconv
      exact absurd hconv (ConvertSpecialValue_ne_map fs m res)
  · intro w
    simp [Converter.ConvertAny]

/-- Witness for C10 at the concrete map `{"inner": ["x"]}`. -/
theorem claimC10_witness :
    ∃ fvs, Converter.ConvertElements testFirestore [Variant.string "x"] = some fvs ∧
      mfvFind [("inner", FieldValue.array [FieldValue.string "x"])] "inner" =
        some (FieldValue.array fvs) :=
  (claimC10 testFirestore [(Variant.string "inner", Variant.vector [Variant.string "x"])]
    (by simp)
    [("inner", FieldValue.array [FieldValue.string "x"])]
    (by simp +decide [Converter.ConvertVariantToFieldValue, Converter.ConvertAny,
          Converter.ConvertMap, Converter.ConvertRegularMap,
          Converter.ConvertMapEntries, Converter.ConvertArray,
          Converter.ConvertRegularArray, Converter.ConvertElements,
          TryGetBoolean, vfind, mfvInsert])
    "inner" [Variant.string "x"] (by simp)).1

/-- The encoder's special-value path is total: it produces a value for
every input map. -/
theorem ConvertSpecialValue_isSome (fs : Firestore) (src : List (Variant × Variant)) :
    ∃ g, Converter.ConvertSpecialValue fs src = some g := by
  unfold Converter.ConvertSpecialValue
  dsimp only
  split_ifs <;> exact ⟨_, rfl⟩

/-- The decoder's special-value path yields the null `Variant` whenever the
`type` field is not `"nested_array"` (including a missing `type`). -/
theorem ConvertSpecialValueToVariant_null (fs : Firestore)
    (src : List (String × FieldValue))
    (h : TryGetStringFV src "type" ≠ "nested_array") :
    Converter.ConvertSpecialValueToVariant fs src = some Variant.null := by
  unfold Converter.ConvertSpecialValueToVariant
  dsimp only
  split_ifs <;> simp_all

/-- The decoder's special-value path unnests the `value` array when the
`type` field is `"nested_array"`. -/
theorem ConvertSpecialValueToVariant_nested (fs : Firestore)
    (src : List (String × FieldValue))
    (h : TryGetStringFV src "type" = "nested_array") :
    Converter.ConvertSpecialValueToVariant fs src =
      Converter.ConvertArrayToVariant fs (TryGetArray src "value") := by
  unfold Converter.ConvertSpecialValueToVariant
  dsimp only
  split_ifs <;> simp_all

/-- Inserting a string key with a `stringKeys` value preserves the map-wide
string-key invariant. -/
theorem stringKeysMap_vmapInsert (k : String) (dv : Variant)
    (hdv : Variant.stringKeys dv = true) :
    ∀ acc, Variant.stringKeysMap acc = true →
      Variant.stringKeysMap (vmapInsert k dv acc) = true := by
  intro acc
  induction acc with
  | nil =>
    intro _
    simp [vmapInsert, Variant.stringKeysMap, Variant.is_string, hdv]
  | cons kv rest ih =>
    intro hacc
    obtain ⟨k₀, w⟩ := kv
    simp only [Variant.stringKeysMap, Bool.and_eq_true] at hacc
    obtain ⟨⟨hks, hw⟩, hrest⟩ := hacc
    rcases k₀ with _ | i | d | b | s | xs | mm | bs <;>
      try simp [Variant.is_string] at hks
    unfold vmapInsert
    dsimp only
    split_ifs <;>
      simp [Variant.stringKeysMap, Variant.is_string, hdv, hw, hrest, ih hrest]

/-- Every `Variant` produced by the decoder satisfies the string-key
invariant: all maps anywhere inside it use only string keys. -/
theorem decode_stringKeys (fs : Firestore) :
    ∀ f v, Converter.ConvertFieldValueToVariant fs f = some v →
      Variant.stringKeys v = true := by
  have H := Converter.ConvertFieldValueToVariant.mutual_induct fs
    (fun f => ∀ v, Converter.ConvertFieldValueToVariant fs f = some v →
      Variant.stringKeys v = true)
    (fun acc m => Variant.stringKeysMap acc = true →
      ∀ v, Converter.ConvertRegularMapToVariant fs acc m = some v →
        Variant.stringKeys v = true)
    (fun m => ∀ v, Converter.ConvertMapToVariant fs m = some v →
      Variant.stringKeys v = true)
    (fun m => ∀ v, Converter.ConvertSpecialValueToVariant fs m = some v →
      Variant.stringKeys v = true)
    (fun xs => ∀ v, Converter.ConvertArrayToVariant fs xs = some v →
      Variant.stringKeys v = true)
    (fun xs => ∀ vs, Converter.ConvertElementsToVariant fs xs = some vs →
      Variant.stringKeysArr vs = true)
    ?_ ?_ ?_ ?_ ?_ ?_ ?_ ?_ ?_ ?_ ?_ ?_ ?_ ?_ ?_ ?_ ?_ ?_ ?_ ?_ ?_ ?_ ?_ ?_ ?_ ?_ ?_ ?_ ?_ ?_ ?_
  · exact H.1
  -- primitives
  · intro v h
    simp [Converter.ConvertFieldValueToVariant] at h
    subst h
    rfl
  · intro b v h
    simp [Converter.ConvertFieldValueToVariant] at h
    subst h
    rfl
  · intro i v h
    simp [Converter.ConvertFieldValueToVariant] at h
    subst h
    rfl
  · intro d v h
    simp [Converter.ConvertFieldValueToVariant] at h
    subst h
    rfl
  · intro s v h
    simp [Converter.ConvertFieldValueToVariant] at h
    subst h
    rfl
  · intro bytes v h
    simp [Converter.ConvertFieldValueToVariant] at h
    subst h
    rfl
  -- array
  · intro xs h5 v h
    simp only [Converter.ConvertFieldValueToVariant] at h
    exact h5 v h
  -- map
  · intro m h3 v h
    simp only [Converter.ConvertFieldValueToVariant] at h
    exact h3 v h
  -- sentinels
  · intro s n h2 v h
    simp only [Converter.ConvertFieldValueToVariant] at h
    exact h2 rfl v h
  · intro la lo h2 v h
    simp only [Converter.ConvertFieldValueToVariant] at h
    exact h2 rfl v h
  · intro r h2 v h
    simp only [Converter.ConvertFieldValueToVariant] at h
    exact h2 rfl v h
  · intro h2 v h
    simp only [Converter.ConvertFieldValueToVariant] at h
    exact h2 rfl v h
  · intro h2 v h
    simp only [Converter.ConvertFieldValueToVariant] at h
    exact h2 rfl v h
  -- merge-only sentinels and the invalid value decode to none
  · intro v h
    simp [Converter.ConvertFieldValueToVariant] at h
  · intro v h
    simp [Converter.ConvertFieldValueToVariant] at h
  · intro v h
    simp [Converter.ConvertFieldValueToVariant] at h
  · intro v h
    simp [Converter.ConvertFieldValueToVariant] at h
  · intro v h
    simp [Converter.ConvertFieldValueToVariant] at h
  -- regular-map loop, nil
  · intro acc hacc v h
    simp only [Converter.ConvertRegularMapToVariant] at h
    rw [Option.some.injEq] at h
    subst h
    simpa [Variant.stringKeys] using hacc
  -- regular-map loop, cons with converted value
  · intro acc k v rest dv hdv h1 h2 hacc w hw
    simp only [Converter.ConvertRegularMapToVariant, hdv] at hw
    exact h2 (stringKeysMap_vmapInsert k dv (h1 dv hdv) acc hacc) w hw
  -- regular-map loop, cons whose value fails to convert
  · intro acc k v rest hnone h1 hacc w hw
    simp [Converter.ConvertRegularMapToVariant, hnone] at hw
  -- map dispatch, special
  · intro src hsp h4 v h
    simp only [Converter.ConvertMapToVariant, hsp, if_true] at h
    exact h4 v h
  -- map dispatch, regular
  · intro src hnsp h2 v h
    simp only [Converter.ConvertMapToVariant] at h
    rw [Bool.not_eq_true] at hnsp
    rw [hnsp] at h
    simp only [Bool.false_eq_true, if_false] at h
    exact h2 rfl v h
  -- special-value path, missing type
  · intro src
    dsimp only
    intro htype v h
    rw [ConvertSpecialValueToVariant_null fs src (by rw [htype]; simp)] at h
    rw [Option.some.injEq] at h
    subst h
    rfl
  -- special-value path, nested_array
  · intro src
    dsimp only
    intro hne hnested h5 v h
    rw [ConvertSpecialValueToVariant_nested fs src hnested] at h
    exact h5 v h
  -- special-value path, other type
  · intro src
    dsimp only
    intro hne hnn v h
    rw [ConvertSpecialValueToVariant_null fs src hnn] at h
    rw [Option.some.injEq] at h
    subst h
    rfl
  -- array path, elements convert
  · intro src result hE h6 v h
    simp only [Converter.ConvertArrayToVariant, hE] at h
    rw [Option.some.injEq] at h
    subst h
    simpa [Variant.stringKeys] using h6 result hE
  -- array path, elements fail
  · intro src hE h6 v h
    simp [Converter.ConvertArrayToVariant, hE] at h
  -- element loop, nil
  · intro vs h
    simp only [Converter.ConvertElementsToVariant] at h
    rw [Option.some.injEq] at h
    subst h
    rfl
  -- element loop, cons success
  · intro v rest a tail hEr hEv h1 h6 vs h
    simp only [Converter.ConvertElementsToVariant, hEv, hEr] at h
    rw [Option.some.injEq] at h
    subst h
    simp only [Variant.stringKeysArr, Bool.and_eq_true]
    exact ⟨h1 a hEv, h6 tail hEr⟩
  -- element loop, cons failure
  · intro v rest hfail h1 h6 vs h
    rcases hEv : Converter.ConvertFieldValueToVariant fs v with _ | a
    · simp [Converter.ConvertElementsToVariant, hEv] at h
    · rcases hEr : Converter.ConvertElementsToVariant fs rest with _ | tail
      · simp [Converter.ConvertElementsToVariant, hEv, hEr] at h
      · exact (hfail a tail hEv hEr).elim

/-- On any `Variant` satisfying the string-key invariant, the encoder never
hits the non-string-key `assert`: it always produces a `FieldValue`. -/
theorem encode_total_of_stringKeys (fs : Firestore) :
    ∀ v w, Variant.stringKeys v = true →
      ∃ g, Converter.ConvertAny fs v w = some g := by
  have H := Converter.ConvertAny.mutual_induct fs
    (fun v w => Variant.stringKeys v = true →
      ∃ g, Converter.ConvertAny fs v w = some g)
    (fun src => Variant.stringKeysMap src = true →
      ∃ g, Converter.ConvertMap fs src = some g)
    (fun src => Variant.stringKeysMap src = true →
      ∃ g, Converter.ConvertRegularMap fs src = some g)
    (fun acc src => Variant.stringKeysMap src = true →
      ∃ g, Converter.ConvertMapEntries fs acc src = some g)
    (fun src w => Variant.stringKeysArr src = true →
      ∃ g, Converter.ConvertArray fs src w = some g)
    (fun src => Variant.stringKeysArr src = true →
      ∃ g, Converter.ConvertRegularArray fs src = some g)
    (fun src => Variant.stringKeysArr src = true →
      ∃ gs, Converter.ConvertElements fs src = some gs)
    ?_ ?_ ?_ ?_ ?_ ?_ ?_ ?_ ?_ ?_ ?_ ?_ ?_ ?_ ?_ ?_ ?_ ?_ ?_ ?_ ?_ ?_ ?_ ?_
  · exact fun v w => H.1 v w
  -- primitives
  · intro x _
    exact ⟨.null, by simp [Converter.ConvertAny]⟩
  · intro b x _
    exact ⟨.boolean b, by simp [Converter.ConvertAny]⟩
  · intro i x _
    exact ⟨.integer i, by simp [Converter.ConvertAny]⟩
  · intro d x _
    exact ⟨.double d, by simp [Converter.ConvertAny]⟩
  · intro s x _
    exact ⟨.string s, by simp [Converter.ConvertAny]⟩
  · intro bytes x _
    exact ⟨.blob bytes, by simp [Converter.ConvertAny]⟩
  -- vector
  · intro xs w h5 hsk
    obtain ⟨g, hg⟩ := h5 (by simpa [Variant.stringKeys] using hsk)
    exact ⟨g, by simp only [Converter.ConvertAny]; exact hg⟩
  -- map
  · intro m x h2 hsk
    obtain ⟨g, hg⟩ := h2 (by simpa [Variant.stringKeys] using hsk)
    exact ⟨g, by simp only [Converter.ConvertAny]; exact hg⟩
  -- map dispatch, special
  · intro src hsp _
    obtain ⟨g, hg⟩ := ConvertSpecialValue_isSome fs src
    exact ⟨g, by simp only [Converter.ConvertMap, hsp, if_true]; exact hg⟩
  -- map dispatch, regular
  · intro src hnsp h3 hskm
    obtain ⟨g, hg⟩ := h3 hskm
    rw [Bool.not_eq_true] at hnsp
    exact ⟨g, by
      simp only [Converter.ConvertMap, hnsp, Bool.false_eq_true, if_false]
      exact hg⟩
  -- regular map, entry loop succeeded
  · intro src result hME h4 _
    exact ⟨.map result, by simp only [Converter.ConvertRegularMap, hME]⟩
  -- regular map, entry loop aborted (impossible under the invariant)
  · intro src hME h4 hskm
    obtain ⟨g, hg⟩ := h4 hskm
    rw [hME] at hg
    exact absurd hg (by simp)
  -- entry loop, nil
  · intro acc _
    exact ⟨acc, by simp [Converter.ConvertMapEntries]⟩
  -- entry loop, cons with string key, value converts
  · intro acc w rest s arr hany h1 h4 hskm
    simp only [Variant.stringKeysMap, Variant.is_string, Bool.and_eq_true,
      Bool.true_and] at hskm
    obtain ⟨_, hrest⟩ := hskm
    obtain ⟨g, hg⟩ := h4 hrest
    exact ⟨g, by simp only [Converter.ConvertMapEntries, hany]; exact hg⟩
  -- entry loop, cons with string key, value fails (impossible)
  · intro acc w rest s hnone h1 hskm
    simp only [Variant.stringKeysMap, Variant.is_string, Bool.and_eq_true,
      Bool.true_and] at hskm
    obtain ⟨hw, _⟩ := hskm
    obtain ⟨g, hg⟩ := h1 hw
    rw [hnone] at hg
    exact absurd hg (by simp)
  -- entry loop, cons with non-string key (impossible under the invariant)
  · intro acc k w rest hns hskm
    simp only [Variant.stringKeysMap, Bool.and_eq_true] at hskm
    obtain ⟨⟨hks, _⟩, _⟩ := hskm
    rcases k with _ | i | d | b | s | xs | mm | bs <;>
      try simp [Variant.is_string] at hks
    exact (hns s rfl).elim
  -- array, top level
  · intro src w hw h6 hska
    obtain ⟨g, hg⟩ := h6 hska
    exact ⟨g, by simp only [Converter.ConvertArray, hw, if_true]; exact hg⟩
  -- array, nested: wrap in the special map
  · intro src w hnw arr hra h6 _
    refine ⟨FieldValue.map [("special", FieldValue.boolean true),
      ("type", FieldValue.string "nested_array"), ("value", arr)], ?_⟩
    rw [Bool.not_eq_true] at hnw
    simp only [Converter.ConvertArray, hnw, Bool.false_eq_true, if_false, hra]
  -- array, nested, regular array failed (impossible)
  · intro src w hnw hra h6 hska
    obtain ⟨g, hg⟩ := h6 hska
    rw [hra] at hg
    exact absurd hg (by simp)
  -- regular array, elements converted
  · intro src result hE h7 _
    exact ⟨.array result, by simp only [Converter.ConvertRegularArray, hE]⟩
  -- regular array, elements failed (impossible)
  · intro src hE h7 hska
    obtain ⟨gs, hgs⟩ := h7 hska
    rw [hE] at hgs
    exact absurd hgs (by simp)
  -- element loop, nil
  · intro _
    exact ⟨[], by simp [Converter.ConvertElements]⟩
  -- element loop, cons success
  · intro v rest f tail hEr hEv h1 h7 hska
    exact ⟨f :: tail, by simp only [Converter.ConvertElements, hEv, hEr]⟩
  -- element loop, cons failure (impossible under the invariant)
  · intro v rest hfail h1 h7 hska
    simp only [Variant.stringKeysArr, Bool.and_eq_true] at hska
    obtain ⟨hv, hrest⟩ := hska
    obtain ⟨f, hf⟩ := h1 hv
    obtain ⟨tail, ht⟩ := h7 hrest
    exact (hfail f tail hf ht).elim

/-- Claim C9: every `Variant` the decoder returns has only string keys in
every map anywhere inside it, so it satisfies the encoder's string-key
precondition and can be passed back to `ConvertVariantToFieldValue` without
triggering the non-string-key abort. -/
theorem claimC9 (fs : Firestore) (f : FieldValue) (v : Variant)
    (h : Converter.ConvertFieldValueToVariant fs f = some v) :
    Variant.stringKeys v = true ∧
    ∃ g, Converter.ConvertVariantToFieldValue fs v = some g := by
  have hsk := decode_stringKeys fs f v h
  exact ⟨hsk, encode_total_of_stringKeys fs v false hsk⟩

/-- Witness for C9: the decoded form of `Timestamp(1, 2)` has only string
keys and re-encodes without aborting. -/
theorem claimC9_witness :
    Variant.stringKeys
      (Variant.map [(Variant.string "nanoseconds", Variant.int64 2),
                    (Variant.string "seconds", Variant.int64 1),
                    (Variant.string "special", Variant.bool true),
                    (Variant.string "type", Variant.string "timestamp")]) = true ∧
    ∃ g, Converter.ConvertVariantToFieldValue testFirestore
      (Variant.map [(Variant.string "nanoseconds", Variant.int64 2),
                    (Variant.string "seconds", Variant.int64 1),
                    (Variant.string "special", Variant.bool true),
                    (Variant.string "type", Variant.string "timestamp")]) = some g :=
  claimC9 testFirestore (FieldValue.timestamp 1 2) _
    (by simp +decide [Converter.ConvertFieldValueToVariant,
          Converter.ConvertRegularMapToVariant, vmapInsert])
